import Mathlib

/-
Verification of the lead-outreach pipeline (src/app.py) against its
natural-language specification.

Modelling conventions:
* The SQLite `leads` table is a list of `Lead` records (`Store`); column
  values are `String` / `Option String` exactly as the columns are TEXT /
  nullable TEXT.  `UPDATE ... WHERE id = ?` is a map over the list guarded
  by the id, `SELECT ... WHERE id = ?` is `List.find?`.
* Timestamps are natural numbers (seconds).  `datetime.now().isoformat()`
  is modelled by serialising the current time with `isoOf`, and
  `datetime.fromisoformat` by `parseTime`, which fails (returns `none`) on
  malformed text, mirroring the exception the Python parser raises.
  Elapsed time `now - ts` uses truncated subtraction; for `ts > now` both
  the Python code (negative elapsed) and the model (0) skip the follow-up.
* Each Flask handler becomes a pure function from the store (plus the
  request data and the current time) to the new store and a response value;
  the HTTP status code of each response constructor matches the handler.
* `print` logging is dropped except in the scheduler sweep, where the
  per-lead `except` handler's log line is kept because the spec talks
  about errored leads being logged.
-/

namespace Outreach

/-- Serialisation of a timestamp, modelling `datetime.now().isoformat()`. -/
def isoOf (t : Nat) : String := toString t

/-- Digit-by-digit accumulator for `parseTime`; fails on any non-digit. -/
def digitsToNat : List Char → Nat → Option Nat
  | [], acc => some acc
  | c :: cs, acc =>
    if c.isDigit then digitsToNat cs (acc * 10 + (c.toNat - '0'.toNat)) else none

/-- Parsing of a stored timestamp, modelling `datetime.fromisoformat`,
which raises (here: returns `none`) on malformed text. -/
def parseTime (s : String) : Option Nat :=
  match s.data with
  | [] => none
  | ds => digitsToNat ds 0

/-- One element of the JSON array posted to `/api/leads/ingest`; a field is
`none` when the key is absent from the JSON object (`lead.get(k)` is `None`). -/
structure LeadInput where
  id : Option String
  companyName : Option String
  website : Option String
  contactName : Option String
  email : Option String
  linkedinProfile : Option String
  industry : Option String
  role : Option String
  companySize : Option String
  location : Option String
  status : Option String
deriving DecidableEq

/-- A row of the `leads` table.  The four ingestion-required columns are
`String`; the remaining free-form columns are nullable. -/
structure Lead where
  id : String
  companyName : String
  website : Option String
  contactName : String
  email : String
  linkedinProfile : Option String
  industry : Option String
  role : Option String
  companySize : Option String
  location : Option String
  status : String
  sentDate : Option String
deriving DecidableEq

/-- The `leads` table. -/
abbrev Store := List Lead

/-- Row built by the `INSERT` of `ingest_leads`: values from `lead.get(...)`,
`status` defaulted to `pending`, `sent_date` inserted as NULL. -/
def recOf (l : LeadInput) : Lead :=
  { id := l.id.getD "", companyName := l.companyName.getD "",
    website := l.website, contactName := l.contactName.getD "",
    email := l.email.getD "", linkedinProfile := l.linkedinProfile,
    industry := l.industry, role := l.role, companySize := l.companySize,
    location := l.location, status := l.status.getD "pending",
    sentDate := none }

/-- `SELECT * FROM leads WHERE id = ?`. -/
def getLead (s : Store) (lid : String) : Option Lead :=
  s.find? (fun r => decide (r.id = lid))

/-- `UPDATE leads SET ... WHERE id = ?`. -/
def updateLead (s : Store) (lid : String) (f : Lead → Lead) : Store :=
  s.map (fun r => if r.id = lid then f r else r)

/-- Validation of `ingest_leads`: `all(k in lead for k in
['id', 'email', 'company_name', 'contact_name'])`. -/
def hasRequired (l : LeadInput) : Bool :=
  l.id.isSome && l.email.isSome && l.companyName.isSome && l.contactName.isSome

/-- Success condition of `INSERT OR IGNORE`: neither the id (primary key)
nor the email (UNIQUE column) is already present. -/
def canInsert (s : Store) (r : Lead) : Bool :=
  s.all (fun q => decide (q.id ≠ r.id ∧ q.email ≠ r.email))

/-- Skip reasons collected in the `errors` list of `ingest_leads`. -/
inductive SkipReason where
  | missingFields (lid : Option String)
  | duplicate (email : Option String)
deriving DecidableEq

/-- Response body of `ingest_leads` (always HTTP 200 for a JSON array). -/
structure IngestResult where
  inserted : Nat
  skipped : Nat
  errors : List SkipReason
  code : Nat
deriving DecidableEq

/-- One iteration of the ingestion loop over the posted array; the
accumulator is (store, inserted, skipped, errors). -/
def ingestStep (acc : Store × Nat × Nat × List SkipReason) (l : LeadInput) :
    Store × Nat × Nat × List SkipReason :=
  if hasRequired l then
    if canInsert acc.1 (recOf l) then (acc.1 ++ [recOf l], acc.2.1 + 1, acc.2.2.1, acc.2.2.2)
    else (acc.1, acc.2.1, acc.2.2.1 + 1, acc.2.2.2 ++ [SkipReason.duplicate l.email])
  else (acc.1, acc.2.1, acc.2.2.1 + 1, acc.2.2.2 ++ [SkipReason.missingFields l.id])

/-- `ingest_leads` on a well-formed (JSON array) payload. -/
def ingest_leads (store : Store) (batch : List LeadInput) : Store × IngestResult :=
  let acc := batch.foldl ingestStep (store, 0, 0, [])
  (acc.1, ⟨acc.2.1, acc.2.2.1, acc.2.2.2, 200⟩)

/-- Which message branch of `track_engagement` fired. -/
inductive TrackOutcome where
  | updatedOpened
  | updatedReplied
  | updatedBounced
  | alreadyReplied
  | notApplicable
deriving DecidableEq

/-- Response of `track_engagement`. -/
inductive TrackResult where
  | invalidAction
  | notFound
  | ok (outcome : TrackOutcome) (newStatus : String) (wrote : Bool)
deriving DecidableEq

/-- HTTP status code attached to each `track_engagement` response. -/
def TrackResult.code : TrackResult → Nat
  | .invalidAction => 400
  | .notFound => 404
  | .ok _ _ _ => 200

def validActions : List String := ["opened", "replied", "bounced"]

/-- The status-transition chain of `track_engagement` (lines 194-210):
given the current status and the action, the new status and which message
was produced. -/
def trackDecision (s a : String) : String × TrackOutcome :=
  if a = "opened" ∧ s = "sent" then ("opened", .updatedOpened)
  else if a = "replied" ∧ s ∈ ["sent", "opened", "pending", "followup_sent"] then
    ("replied", .updatedReplied)
  else if a = "bounced" ∧ s ∈ ["sent", "pending", "followup_sent"] then
    ("bounced", .updatedBounced)
  else if a = "replied" ∧ s = "replied" then (s, .alreadyReplied)
  else (s, .notApplicable)

/-- `track_engagement`: validates the action, looks the lead up, applies the
transition chain and writes the status back only when it changed.  The
`wrote` flag of the `ok` response records whether the UPDATE was issued. -/
def track_engagement (store : Store) (lid a : String) : Store × TrackResult :=
  if a ∉ validActions then (store, .invalidAction)
  else
    match getLead store lid with
    | none => (store, .notFound)
    | some r =>
      if (trackDecision r.status a).1 ≠ r.status then
        (updateLead store lid (fun q => { q with status := (trackDecision r.status a).1 }),
         .ok (trackDecision r.status a).2 (trackDecision r.status a).1 true)
      else (store, .ok (trackDecision r.status a).2 (trackDecision r.status a).1 false)

/-- Response of `send_outreach`. -/
inductive SendResult where
  | notFound
  | already (st : String)
  | sentOk (iso : String)
deriving DecidableEq

/-- HTTP status code attached to each `send_outreach` response. -/
def SendResult.code : SendResult → Nat
  | .notFound => 404
  | .already _ => 200
  | .sentOk _ => 200

/-- `send_outreach` at time `t`: a no-op reporting the current status unless
the lead is `pending`; otherwise sets `status = sent` and `sent_date = now`. -/
def send_outreach (store : Store) (lid : String) (t : Nat) : Store × SendResult :=
  match getLead store lid with
  | none => (store, .notFound)
  | some r =>
    if r.status ≠ "pending" then (store, .already r.status)
    else
      (updateLead store lid (fun q => { q with status := "sent", sentDate := some (isoOf t) }),
       .sentOk (isoOf t))

/-- Response of `send_followup` (the route). -/
inductive FollowupResult where
  | notFound
  | rejected (st : String)
  | okF (iso : String)
deriving DecidableEq

/-- HTTP status code attached to each `send_followup` response; note the
rejection branch returns 400 in the source. -/
def FollowupResult.code : FollowupResult → Nat
  | .notFound => 404
  | .rejected _ => 400
  | .okF _ => 200

/-- `send_followup` (the route) at time `t`. -/
def send_followup (store : Store) (lid : String) (t : Nat) : Store × FollowupResult :=
  match getLead store lid with
  | none => (store, .notFound)
  | some r =>
    if r.status ∉ ["sent", "opened"] then (store, .rejected r.status)
    else
      (updateLead store lid
        (fun q => { q with status := "followup_sent", sentDate := some (isoOf t) }),
       .okF (isoOf t))

/-- `send_followup_internal` (the scheduler's helper) at time `t`: re-fetches
the lead, applies the same legality check and the same UPDATE as the route. -/
def send_followup_internal (store : Store) (lid : String) (t : Nat) : Store :=
  match getLead store lid with
  | none => store
  | some r =>
    if r.status ∉ ["sent", "opened"] then store
    else
      updateLead store lid
        (fun q => { q with status := "followup_sent", sentDate := some (isoOf t) })

/-- The per-lead body of the scheduler loop in `automated_followup_check`:
parse the snapshot's `sent_date`; on failure log and continue; if due,
invoke `send_followup_internal` on the current store. -/
def processLead (now : Nat) (acc : Store × List String) (lead : Lead) :
    Store × List String :=
  match lead.sentDate with
  | none => (acc.1, acc.2 ++ ["Error processing lead " ++ lead.id])
  | some d =>
    match parseTime d with
    | none => (acc.1, acc.2 ++ ["Error processing lead " ++ lead.id])
    | some ts =>
      if 60 ≤ now - ts then (send_followup_internal acc.1 lead.id now, acc.2)
      else acc

/-- `automated_followup_check` at time `now`: snapshot the candidates
(`status IN ('sent','opened') AND sent_date IS NOT NULL`), then run the
per-lead body over the snapshot, collecting the error log. -/
def automated_followup_check (store : Store) (now : Nat) : Store × List String :=
  let candidates :=
    store.filter (fun r => decide (r.status ∈ (["sent", "opened"] : List String)) && r.sentDate.isSome)
  candidates.foldl (processLead now) (store, [])

/-- Whether one scheduler tick at time `now` follows a given lead up:
candidate status, a stored `sent_date` that parses, and at least the
60-second testing threshold elapsed. -/
def dueFor (now : Nat) (r : Lead) : Bool :=
  decide (r.status ∈ (["sent", "opened"] : List String)) &&
    (match r.sentDate with
     | some d => match parseTime d with
        | some ts => decide (60 ≤ now - ts)
        | none => false
     | none => false)

/-- The effect of one scheduler tick on a single lead. -/
def tickOne (now : Nat) (r : Lead) : Lead :=
  if dueFor now r then { r with status := "followup_sent", sentDate := some (isoOf now) }
  else r

/-- Store component of `processLead`, which does not depend on the log. -/
def plStore (now : Nat) (store : Store) (lead : Lead) : Store :=
  match lead.sentDate with
  | none => store
  | some d =>
    match parseTime d with
    | none => store
    | some ts =>
      if 60 ≤ now - ts then send_followup_internal store lead.id now else store

/-- The error-log entry a tick produces for a single candidate, if any. -/
def errOf (r : Lead) : Option String :=
  match r.sentDate with
  | none => some ("Error processing lead " ++ r.id)
  | some d =>
    match parseTime d with
    | none => some ("Error processing lead " ++ r.id)
    | some _ => none

/-- The public operations of the pipeline, each tagged with the time at
which it runs where the source reads the clock. -/
inductive Op where
  | ingest (batch : List LeadInput)
  | send (lid : String) (t : Nat)
  | track (lid : String) (a : String)
  | followup (lid : String) (t : Nat)
  | tick (now : Nat)

/-- State effect of one public operation. -/
def stepOp (s : Store) : Op → Store
  | .ingest b => (ingest_leads s b).1
  | .send lid t => (send_outreach s lid t).1
  | .track lid a => (track_engagement s lid a).1
  | .followup lid t => (send_followup s lid t).1
  | .tick now => (automated_followup_check s now).1

/-- Running a sequence of public operations. -/
def run (s : Store) (ops : List Op) : Store := ops.foldl stepOp s

/-- All intermediate stores of a run, the initial one included. -/
def statesList (s : Store) : List Op → List Store
  | [] => [s]
  | op :: rest => s :: statesList (stepOp s op) rest

/-- The statuses whose first occurrence the spec ties to `sent_date`. -/
def sendlike (st : String) : Bool :=
  decide (st ∈ (["sent", "opened", "followup_sent"] : List String))

/-- Some record with the given id currently has a sendlike status. -/
def anySl (s : Store) (lid : String) : Bool :=
  s.any (fun r => decide (r.id = lid) && sendlike r.status)

/-- A sendlike status was reached at least once along the run. -/
def reachedSendlike (s : Store) (ops : List Op) (lid : String) : Bool :=
  (statesList s ops).any (fun st => anySl st lid)

/-- Stored `sent_date` of the record with the given id, if present. -/
def sdAt (s : Store) (lid : String) : Option String :=
  (getLead s lid).bind (fun r => r.sentDate)

/-- Whether the operation, fired against the given store, is an effective
send or follow-up event for the record with the given id, and at what
time.  Engagement (`track`) and ingestion are never events. -/
def evtOf (s : Store) (lid : String) : Op → Option Nat
  | .send l t =>
    match getLead s l with
    | some r => if l = lid ∧ r.status = "pending" then some t else none
    | none => none
  | .followup l t =>
    match getLead s l with
    | some r => if l = lid ∧ r.status ∈ ["sent", "opened"] then some t else none
    | none => none
  | .tick now =>
    match getLead s lid with
    | some r => if dueFor now r then some now else none
    | none => none
  | .track _ _ => none
  | .ingest _ => none

/-- Time of the most recent effective send or follow-up event for the given
id along a run, threaded from `cur`. -/
def lastEvt (cur : Option Nat) (s : Store) (lid : String) : List Op → Option Nat
  | [] => cur
  | op :: rest =>
    lastEvt (match evtOf s lid op with | some t => some t | none => cur)
      (stepOp s op) lid rest

/-- Well-formedness the PRIMARY KEY constraint guarantees: ids are unique. -/
def WF (s : Store) : Prop := (s.map (fun r => r.id)).Nodup

instance decidableWF (s : Store) : Decidable (WF s) := by
  unfold WF
  infer_instance

/-- The state part of the invariant: a sendlike status implies a stored
`sent_date`. -/
def GoodStore (s : Store) : Prop :=
  WF s ∧ ∀ r ∈ s, sendlike r.status = true → r.sentDate.isSome = true

/-- An operation is benign when any ingested record's supplied status
(defaulted to `pending`) is not sendlike. -/
def benignOp : Op → Bool
  | .ingest b => b.all (fun l => !sendlike (l.status.getD "pending"))
  | _ => true

/-- Projection used for frame conditions: everything but the status. -/
def eraseStatus (r : Lead) : Lead := { r with status := "" }

/-- Concrete ingestion payload used in concrete instances below. -/
def mkInput (i e st : Option String) : LeadInput :=
  ⟨i, some "Acme", none, some "Bo", e, none, none, none, none, none, st⟩

/-- Concrete stored lead used in concrete instances below. -/
def mkLead (i e st : String) (sd : Option String) : Lead :=
  ⟨i, "Acme", none, "Bo", e, none, none, none, none, none, st, sd⟩

theorem getLead_id {s : Store} {lid : String} {r : Lead} (h : getLead s lid = some r) :
    r.id = lid := by
  have := List.find?_some h
  simpa using this

theorem mem_of_getLead {s : Store} {lid : String} {r : Lead} (h : getLead s lid = some r) :
    r ∈ s :=
  List.mem_of_find?_eq_some h

theorem getLead_map {s : Store} {lid : String} {f : Lead → Lead}
    (hf : ∀ r, (f r).id = r.id) :
    getLead (s.map f) lid = (getLead s lid).map f := by
  unfold getLead
  rw [List.find?_map]
  have hp : ((fun r : Lead => decide (r.id = lid)) ∘ f) = fun r : Lead => decide (r.id = lid) := by
    funext r
    simp [Function.comp, hf r]
  rw [hp]

theorem updateLead_eq_map {s : Store} {lid : String} {f : Lead → Lead} :
    updateLead s lid f = s.map (fun r => if r.id = lid then f r else r) := rfl

theorem getLead_updateLead_self {s : Store} {lid : String} {f : Lead → Lead}
    (hf : ∀ r, (f r).id = r.id) :
    getLead (updateLead s lid f) lid = (getLead s lid).map f := by
  rw [updateLead_eq_map, getLead_map (fun r => by by_cases h : r.id = lid <;> simp [h, hf r])]
  cases hg : getLead s lid with
  | none => rfl
  | some r => simp [getLead_id hg]

theorem getLead_updateLead_other {s : Store} {lid lid' : String} {f : Lead → Lead}
    (hf : ∀ r, (f r).id = r.id) (hne : lid ≠ lid') :
    getLead (updateLead s lid f) lid' = getLead s lid' := by
  rw [updateLead_eq_map, getLead_map (fun r => by by_cases h : r.id = lid <;> simp [h, hf r])]
  cases hg : getLead s lid' with
  | none => rfl
  | some r =>
    have hid := getLead_id hg
    have : ¬r.id = lid := by rw [hid]; exact fun h => hne h.symm
    simp [this]

theorem getLead_setStatus_self (s : Store) (lid st : String) :
    getLead (updateLead s lid (fun q => { q with status := st })) lid
      = (getLead s lid).map (fun q => { q with status := st }) :=
  getLead_updateLead_self (fun _ => rfl)

theorem getLead_setStatus_other (s : Store) (lid lid' st : String) (hne : lid ≠ lid') :
    getLead (updateLead s lid (fun q => { q with status := st })) lid'
      = getLead s lid' :=
  getLead_updateLead_other (fun _ => rfl) hne

theorem getLead_setBoth_self (s : Store) (lid st : String) (sd : Option String) :
    getLead (updateLead s lid (fun q => { q with status := st, sentDate := sd })) lid
      = (getLead s lid).map (fun q => { q with status := st, sentDate := sd }) :=
  getLead_updateLead_self (fun _ => rfl)

theorem getLead_setBoth_other (s : Store) (lid lid' st : String) (sd : Option String)
    (hne : lid ≠ lid') :
    getLead (updateLead s lid (fun q => { q with status := st, sentDate := sd })) lid'
      = getLead s lid' :=
  getLead_updateLead_other (fun _ => rfl) hne

theorem updateLead_congr {s : Store} {lid : String} {f g : Lead → Lead}
    (h : ∀ r ∈ s, r.id = lid → f r = g r) :
    updateLead s lid f = updateLead s lid g := by
  unfold updateLead
  exact List.map_congr_left fun r hr => by
    by_cases hid : r.id = lid
    · simp [hid, h r hr hid]
    · simp [hid]

theorem updateLead_eq_self {s : Store} {lid : String} {f : Lead → Lead}
    (h : ∀ r ∈ s, r.id = lid → f r = r) :
    updateLead s lid f = s := by
  unfold updateLead
  conv_rhs => rw [← List.map_id s]
  exact List.map_congr_left fun r hr => by
    by_cases hid : r.id = lid
    · simp [hid, h r hr hid]
    · simp [hid]

theorem ids_updateLead {s : Store} {lid : String} {f : Lead → Lead}
    (hf : ∀ r, (f r).id = r.id) :
    (updateLead s lid f).map (fun r => r.id) = s.map (fun r => r.id) := by
  unfold updateLead
  rw [List.map_map]
  exact List.map_congr_left fun r _ => by
    by_cases h : r.id = lid <;> simp [Function.comp, h, hf r]

theorem WF_updateLead {s : Store} {lid : String} {f : Lead → Lead}
    (hf : ∀ r, (f r).id = r.id) (hwf : WF s) : WF (updateLead s lid f) := by
  unfold WF
  rw [ids_updateLead hf]
  exact hwf

theorem WF_map {s : Store} {f : Lead → Lead} (hf : ∀ r, (f r).id = r.id) (hwf : WF s) :
    WF (s.map f) := by
  unfold WF
  rw [List.map_map]
  have : ((fun r : Lead => r.id) ∘ f) = fun r : Lead => r.id := by
    funext r
    simp [Function.comp, hf r]
  rw [this]
  exact hwf

theorem getLead_of_mem {s : Store} (hwf : WF s) {r : Lead} (hr : r ∈ s) :
    getLead s r.id = some r := by
  induction s with
  | nil => cases hr
  | cons a t ih =>
    have h1 : (a.id :: t.map (fun r => r.id)).Nodup := by
      simpa only [WF, List.map_cons] using hwf
    have hnd := List.nodup_cons.mp h1
    rcases List.mem_cons.mp hr with h | h
    · subst h
      unfold getLead
      rw [List.find?_cons_of_pos _ (by simp)]
    · have hne : ¬a.id = r.id := by
        intro he
        exact hnd.1 (he ▸ List.mem_map_of_mem (fun q => q.id) h)
      unfold getLead
      rw [List.find?_cons_of_neg _ (by simpa using hne)]
      exact ih hnd.2 h

theorem eq_of_getLead {s : Store} (hwf : WF s) {lid : String} {r q : Lead}
    (hr : getLead s lid = some r) (hq : q ∈ s) (hid : q.id = lid) : q = r := by
  have := getLead_of_mem hwf hq
  rw [hid, hr] at this
  exact (Option.some_inj.mp this).symm

theorem ingestStep_counts (acc : Store × Nat × Nat × List SkipReason) (l : LeadInput) :
    (ingestStep acc l).2.1 + (ingestStep acc l).2.2.1 = acc.2.1 + acc.2.2.1 + 1 := by
  unfold ingestStep
  by_cases h1 : hasRequired l
  · by_cases h2 : canInsert acc.1 (recOf l) <;> simp [h1, h2] <;> omega
  · simp [h1]
    omega

theorem ingest_fold_counts (batch : List LeadInput) :
    ∀ acc : Store × Nat × Nat × List SkipReason,
      (batch.foldl ingestStep acc).2.1 + (batch.foldl ingestStep acc).2.2.1
        = acc.2.1 + acc.2.2.1 + batch.length := by
  induction batch with
  | nil => intro acc; simp
  | cons l rest ih =>
    intro acc
    rw [List.foldl_cons, ih (ingestStep acc l), ingestStep_counts]
    simp [List.length_cons]
    omega

theorem ingest_fold_shape (batch : List LeadInput) :
    ∀ acc : Store × Nat × Nat × List SkipReason,
      ∃ tail, (batch.foldl ingestStep acc).1 = acc.1 ++ tail ∧
        ∀ r ∈ tail, ∃ l ∈ batch, r = recOf l := by
  induction batch with
  | nil => intro acc; exact ⟨[], by simp, by simp⟩
  | cons l rest ih =>
    intro acc
    rw [List.foldl_cons]
    obtain ⟨tail, ht, hmem⟩ := ih (ingestStep acc l)
    by_cases h1 : hasRequired l
    · by_cases h2 : canInsert acc.1 (recOf l)
      · refine ⟨recOf l :: tail, ?_, ?_⟩
        · rw [ht]
          simp [ingestStep, h1, h2]
        · intro r hr
          rcases List.mem_cons.mp hr with h | h
          · exact ⟨l, List.mem_cons_self _ _, h⟩
          · obtain ⟨l', hl', he⟩ := hmem r h
            exact ⟨l', List.mem_cons_of_mem _ hl', he⟩
      · refine ⟨tail, ?_, fun r hr => ?_⟩
        · rw [ht]
          simp [ingestStep, h1, h2]
        · obtain ⟨l', hl', he⟩ := hmem r hr
          exact ⟨l', List.mem_cons_of_mem _ hl', he⟩
    · refine ⟨tail, ?_, fun r hr => ?_⟩
      · rw [ht]
        simp [ingestStep, h1]
      · obtain ⟨l', hl', he⟩ := hmem r hr
        exact ⟨l', List.mem_cons_of_mem _ hl', he⟩

theorem ingestStep_wf (acc : Store × Nat × Nat × List SkipReason) (l : LeadInput)
    (h : WF acc.1) : WF (ingestStep acc l).1 := by
  unfold ingestStep
  by_cases h1 : hasRequired l
  · by_cases h2 : canInsert acc.1 (recOf l)
    · simp only [h1, h2, if_true]
      unfold WF
      rw [List.map_append]
      rw [List.nodup_append]
      refine ⟨h, by simp, ?_⟩
      intro a ha hb
      simp only [List.map_cons, List.map_nil, List.mem_singleton] at hb
      obtain ⟨q, hq, hqa⟩ := List.mem_map.mp ha
      have := (List.all_eq_true.mp h2) q hq
      have hne : q.id ≠ (recOf l).id := (of_decide_eq_true this).1
      exact hne (hqa.trans hb)
    · simp [h1, h2, h]
  · simp [h1, h]

theorem ingest_fold_wf (batch : List LeadInput) :
    ∀ acc : Store × Nat × Nat × List SkipReason, WF acc.1 →
      WF ((batch.foldl ingestStep acc).1) := by
  induction batch with
  | nil => intro acc h; simpa using h
  | cons l rest ih =>
    intro acc h
    rw [List.foldl_cons]
    exact ih _ (ingestStep_wf acc l h)

theorem ingest_leads_shape (store : Store) (batch : List LeadInput) :
    ∃ tail, (ingest_leads store batch).1 = store ++ tail ∧
      ∀ r ∈ tail, ∃ l ∈ batch, r = recOf l := by
  simpa [ingest_leads] using ingest_fold_shape batch (store, 0, 0, [])

theorem ingest_leads_wf (store : Store) (batch : List LeadInput) (h : WF store) :
    WF (ingest_leads store batch).1 := by
  simpa [ingest_leads] using ingest_fold_wf batch (store, 0, 0, []) h

theorem tickOne_id (now : Nat) (r : Lead) : (tickOne now r).id = r.id := by
  unfold tickOne
  split <;> rfl

theorem processLead_fst (now : Nat) (acc : Store × List String) (lead : Lead) :
    (processLead now acc lead).1 = plStore now acc.1 lead := by
  cases hsd : lead.sentDate with
  | none => simp [processLead, plStore, hsd]
  | some d =>
    cases hpt : parseTime d with
    | none => simp [processLead, plStore, hsd, hpt]
    | some ts =>
      by_cases h : 60 ≤ now - ts <;> simp [processLead, plStore, hsd, hpt, h]

theorem processLead_snd (now : Nat) (acc : Store × List String) (lead : Lead) :
    (processLead now acc lead).2 = acc.2 ++ (errOf lead).toList := by
  cases hsd : lead.sentDate with
  | none => simp [processLead, errOf, hsd]
  | some d =>
    cases hpt : parseTime d with
    | none => simp [processLead, errOf, hsd, hpt]
    | some ts =>
      by_cases h : 60 ≤ now - ts <;> simp [processLead, errOf, hsd, hpt, h]

theorem foldl_processLead_fst (now : Nat) (cds : List Lead) :
    ∀ acc : Store × List String,
      (cds.foldl (processLead now) acc).1 = cds.foldl (plStore now) acc.1 := by
  induction cds with
  | nil => intro acc; rfl
  | cons c rest ih =>
    intro acc
    rw [List.foldl_cons, List.foldl_cons, ih, processLead_fst]

theorem foldl_processLead_snd (now : Nat) (cds : List Lead) :
    ∀ acc : Store × List String,
      (cds.foldl (processLead now) acc).2 = acc.2 ++ cds.filterMap errOf := by
  induction cds with
  | nil => intro acc; simp
  | cons c rest ih =>
    intro acc
    rw [List.foldl_cons, ih, processLead_snd]
    cases he : errOf c <;> simp [List.filterMap_cons, he]

theorem plStore_eq {now : Nat} {store : Store} {c : Lead} (hwf : WF store)
    (hc : getLead store c.id = some c) :
    plStore now store c = updateLead store c.id (tickOne now) := by
  have hself : ∀ r ∈ store, r.id = c.id → r = c := fun r hr hid => eq_of_getLead hwf hc hr hid
  cases hsd : c.sentDate with
  | none =>
    have hdf : dueFor now c = false := by simp [dueFor, hsd]
    rw [show plStore now store c = store from by simp [plStore, hsd]]
    exact (updateLead_eq_self fun r hr hid => by
      rw [hself r hr hid]; simp [tickOne, hdf]).symm
  | some d =>
    cases hpt : parseTime d with
    | none =>
      have hdf : dueFor now c = false := by simp [dueFor, hsd, hpt]
      rw [show plStore now store c = store from by simp [plStore, hsd, hpt]]
      exact (updateLead_eq_self fun r hr hid => by
        rw [hself r hr hid]; simp [tickOne, hdf]).symm
    | some ts =>
      by_cases hdue : 60 ≤ now - ts
      · rw [show plStore now store c = send_followup_internal store c.id now from by
          simp [plStore, hsd, hpt, hdue]]
        by_cases hst : c.status ∈ (["sent", "opened"] : List String)
        · have hdf : dueFor now c = true := by simp [dueFor, hsd, hpt, hst, hdue]
          rw [show send_followup_internal store c.id now = updateLead store c.id
              (fun q => { q with status := "followup_sent", sentDate := some (isoOf now) }) from by
            simp [send_followup_internal, hc, hst]]
          exact updateLead_congr fun r hr hid => by
            rw [hself r hr hid]; simp [tickOne, hdf]
        · have hdf : dueFor now c = false := by simp [dueFor, hst]
          rw [show send_followup_internal store c.id now = store from by
            simp [send_followup_internal, hc, hst]]
          exact (updateLead_eq_self fun r hr hid => by
            rw [hself r hr hid]; simp [tickOne, hdf]).symm
      · have hdf : dueFor now c = false := by simp [dueFor, hsd, hpt, hdue]
        rw [show plStore now store c = store from by simp [plStore, hsd, hpt, hdue]]
        exact (updateLead_eq_self fun r hr hid => by
          rw [hself r hr hid]; simp [tickOne, hdf]).symm

theorem foldl_plStore (now : Nat) (cds : List Lead) :
    ∀ store : Store, WF store → (∀ c ∈ cds, getLead store c.id = some c) →
      ((cds.map (fun c => c.id)).Nodup) →
      cds.foldl (plStore now) store
        = store.map (fun r => if r.id ∈ cds.map (fun c => c.id) then tickOne now r else r) := by
  induction cds with
  | nil =>
    intro store _ _ _
    simp
  | cons c rest ih =>
    intro store hwf hin hnd
    rw [List.foldl_cons]
    have hc : getLead store c.id = some c := hin c (List.mem_cons_self _ _)
    rw [plStore_eq hwf hc]
    have hnd2 : (c.id :: rest.map (fun q => q.id)).Nodup := by
      simpa only [List.map_cons] using hnd
    have hnd' := List.nodup_cons.mp hnd2
    have hwf1 : WF (updateLead store c.id (tickOne now)) := WF_updateLead (tickOne_id now) hwf
    have hin1 : ∀ c' ∈ rest, getLead (updateLead store c.id (tickOne now)) c'.id = some c' := by
      intro c' hc'
      have hne : c.id ≠ c'.id := fun he => hnd'.1 (he ▸ List.mem_map_of_mem _ hc')
      rw [getLead_updateLead_other (tickOne_id now) hne]
      exact hin c' (List.mem_cons_of_mem _ hc')
    rw [ih _ hwf1 hin1 hnd'.2, updateLead_eq_map, List.map_map]
    apply List.map_congr_left
    intro r _
    by_cases h1 : r.id = c.id
    · have h2 : (tickOne now r).id ∉ rest.map (fun q => q.id) := by
        rw [tickOne_id, h1]
        exact hnd'.1
      simp [Function.comp, h1, h2, List.mem_cons]
    · by_cases h2 : r.id ∈ rest.map (fun q => q.id) <;>
        simp [Function.comp, h1, h2, List.mem_cons]

theorem tick_fst (store : Store) (now : Nat) (hwf : WF store) :
    (automated_followup_check store now).1 = store.map (tickOne now) := by
  unfold automated_followup_check
  rw [foldl_processLead_fst]
  have hin : ∀ c ∈ store.filter
      (fun r => decide (r.status ∈ (["sent", "opened"] : List String)) && r.sentDate.isSome),
      getLead store c.id = some c :=
    fun c hcf => getLead_of_mem hwf (List.mem_of_mem_filter hcf)
  have hnd : ((store.filter
      (fun r => decide (r.status ∈ (["sent", "opened"] : List String)) && r.sentDate.isSome)).map
        (fun c => c.id)).Nodup :=
    List.Nodup.sublist ((List.filter_sublist _).map _) hwf
  rw [foldl_plStore now _ _ hwf hin hnd]
  apply List.map_congr_left
  intro r hr
  by_cases hmem : r.id ∈ (store.filter
      (fun q => decide (q.status ∈ (["sent", "opened"] : List String)) && q.sentDate.isSome)).map
        (fun c => c.id)
  · rw [if_pos hmem]
  · have hp : (decide (r.status ∈ (["sent", "opened"] : List String)) && r.sentDate.isSome) = false := by
      by_contra hcon
      have hp' : (decide (r.status ∈ (["sent", "opened"] : List String)) && r.sentDate.isSome) = true := by
        revert hcon
        cases decide (r.status ∈ (["sent", "opened"] : List String)) && r.sentDate.isSome <;> simp
      exact hmem (List.mem_map_of_mem _ (List.mem_filter.mpr ⟨hr, hp'⟩))
    have hdf : dueFor now r = false := by
      rcases Bool.and_eq_false_iff.mp hp with hb | hb
      · unfold dueFor
        rw [hb]
        rfl
      · have hnone : r.sentDate = none := Option.not_isSome_iff_eq_none.mp (by simp [hb])
        unfold dueFor
        rw [hnone]
        simp
    rw [if_neg hmem]
    simp [tickOne, hdf]

theorem tick_snd (store : Store) (now : Nat) :
    (automated_followup_check store now).2
      = (store.filter
          (fun r => decide (r.status ∈ (["sent", "opened"] : List String)) && r.sentDate.isSome)).filterMap
            errOf := by
  unfold automated_followup_check
  rw [foldl_processLead_snd]
  simp

theorem send_eq_notFound {s : Store} {lid : String} {t : Nat} (h : getLead s lid = none) :
    send_outreach s lid t = (s, .notFound) := by
  simp [send_outreach, h]

theorem send_eq_already {s : Store} {lid : String} {t : Nat} {r : Lead}
    (h : getLead s lid = some r) (hs : r.status ≠ "pending") :
    send_outreach s lid t = (s, .already r.status) := by
  simp [send_outreach, h, hs]

theorem send_eq_pending {s : Store} {lid : String} {t : Nat} {r : Lead}
    (h : getLead s lid = some r) (hs : r.status = "pending") :
    send_outreach s lid t
      = (updateLead s lid (fun q => { q with status := "sent", sentDate := some (isoOf t) }),
         .sentOk (isoOf t)) := by
  simp [send_outreach, h, hs]

theorem followup_eq_notFound {s : Store} {lid : String} {t : Nat} (h : getLead s lid = none) :
    send_followup s lid t = (s, .notFound) := by
  simp [send_followup, h]

theorem followup_eq_rejected {s : Store} {lid : String} {t : Nat} {r : Lead}
    (h : getLead s lid = some r) (hs : r.status ∉ (["sent", "opened"] : List String)) :
    send_followup s lid t = (s, .rejected r.status) := by
  simp [send_followup, h, hs]

theorem followup_eq_ok {s : Store} {lid : String} {t : Nat} {r : Lead}
    (h : getLead s lid = some r) (hs : r.status ∈ (["sent", "opened"] : List String)) :
    send_followup s lid t
      = (updateLead s lid (fun q => { q with status := "followup_sent", sentDate := some (isoOf t) }),
         .okF (isoOf t)) := by
  simp [send_followup, h, hs]

theorem internal_eq_notFound {s : Store} {lid : String} {t : Nat} (h : getLead s lid = none) :
    send_followup_internal s lid t = s := by
  simp [send_followup_internal, h]

theorem internal_eq_rejected {s : Store} {lid : String} {t : Nat} {r : Lead}
    (h : getLead s lid = some r) (hs : r.status ∉ (["sent", "opened"] : List String)) :
    send_followup_internal s lid t = s := by
  simp [send_followup_internal, h, hs]

theorem internal_eq_ok {s : Store} {lid : String} {t : Nat} {r : Lead}
    (h : getLead s lid = some r) (hs : r.status ∈ (["sent", "opened"] : List String)) :
    send_followup_internal s lid t
      = updateLead s lid (fun q => { q with status := "followup_sent", sentDate := some (isoOf t) }) := by
  simp [send_followup_internal, h, hs]

theorem track_eq_invalid {s : Store} {lid a : String} (ha : a ∉ validActions) :
    track_engagement s lid a = (s, .invalidAction) := by
  simp [track_engagement, ha]

theorem track_eq_notFound {s : Store} {lid a : String} (ha : a ∈ validActions)
    (h : getLead s lid = none) :
    track_engagement s lid a = (s, .notFound) := by
  simp [track_engagement, ha, h]

theorem track_eq_write {s : Store} {lid a : String} {r : Lead} (ha : a ∈ validActions)
    (h : getLead s lid = some r) (hne : (trackDecision r.status a).1 ≠ r.status) :
    track_engagement s lid a
      = (updateLead s lid (fun q => { q with status := (trackDecision r.status a).1 }),
         .ok (trackDecision r.status a).2 (trackDecision r.status a).1 true) := by
  simp [track_engagement, ha, h, hne]

theorem track_eq_nowrite {s : Store} {lid a : String} {r : Lead} (ha : a ∈ validActions)
    (h : getLead s lid = some r) (heq : (trackDecision r.status a).1 = r.status) :
    track_engagement s lid a
      = (s, .ok (trackDecision r.status a).2 (trackDecision r.status a).1 false) := by
  simp [track_engagement, ha, h, heq]

theorem sendlike_trackDecision {st a : String}
    (h : sendlike (trackDecision st a).1 = true) : sendlike st = true := by
  unfold trackDecision at h
  split at h
  · rename_i hc
    rw [hc.2]
    decide
  · split at h
    · exact absurd h (by decide)
    · split at h
      · exact absurd h (by decide)
      · split at h
        · simpa using h
        · simpa using h

theorem stepOp_WF {s : Store} (op : Op) (hwf : WF s) : WF (stepOp s op) := by
  cases op with
  | ingest b => exact ingest_leads_wf s b hwf
  | send lid t =>
    show WF (send_outreach s lid t).1
    cases hg : getLead s lid with
    | none => rw [send_eq_notFound hg]; exact hwf
    | some r =>
      by_cases hp : r.status = "pending"
      · rw [send_eq_pending hg hp]
        exact WF_updateLead (fun q => rfl) hwf
      · rw [send_eq_already hg hp]
        exact hwf
  | track lid a =>
    show WF (track_engagement s lid a).1
    by_cases ha : a ∈ validActions
    · cases hg : getLead s lid with
      | none => rw [track_eq_notFound ha hg]; exact hwf
      | some r =>
        by_cases hne : (trackDecision r.status a).1 ≠ r.status
        · rw [track_eq_write ha hg hne]
          exact WF_updateLead (fun q => rfl) hwf
        · rw [track_eq_nowrite ha hg (not_not.mp hne)]
          exact hwf
    · rw [track_eq_invalid ha]
      exact hwf
  | followup lid t =>
    show WF (send_followup s lid t).1
    cases hg : getLead s lid with
    | none => rw [followup_eq_notFound hg]; exact hwf
    | some r =>
      by_cases hs : r.status ∈ (["sent", "opened"] : List String)
      · rw [followup_eq_ok hg hs]
        exact WF_updateLead (fun q => rfl) hwf
      · rw [followup_eq_rejected hg hs]
        exact hwf
  | tick now =>
    show WF (automated_followup_check s now).1
    rw [tick_fst s now hwf]
    exact WF_map (tickOne_id now) hwf

theorem stepOp_good {s : Store} (op : Op) (hg : GoodStore s) (hb : benignOp op = true) :
    GoodStore (stepOp s op) := by
  obtain ⟨hwf, hA⟩ := hg
  refine ⟨stepOp_WF op hwf, ?_⟩
  cases op with
  | ingest b =>
    obtain ⟨tail, ht, hmem⟩ := ingest_leads_shape s b
    show ∀ r ∈ (ingest_leads s b).1, _
    rw [ht]
    intro r hr hsl
    rcases List.mem_append.mp hr with h | h
    · exact hA r h hsl
    · obtain ⟨l, hl, he⟩ := hmem r h
      have hben := List.all_eq_true.mp hb l hl
      rw [Bool.not_eq_true'] at hben
      exfalso
      rw [he] at hsl
      have hst : (recOf l).status = l.status.getD "pending" := rfl
      rw [hst, hben] at hsl
      exact Bool.false_ne_true hsl
  | send lid t =>
    show ∀ r ∈ (send_outreach s lid t).1, _
    cases hgl : getLead s lid with
    | none => rw [send_eq_notFound hgl]; exact hA
    | some r =>
      by_cases hp : r.status = "pending"
      · rw [send_eq_pending hgl hp]
        intro r' hr' _
        obtain ⟨q, hq, he⟩ := List.mem_map.mp hr'
        by_cases hid : q.id = lid
        · rw [← he, if_pos hid]
          rfl
        · rw [← he, if_neg hid]
          rw [if_neg hid] at he
          exact hA q hq (by rw [he] at *; assumption)
      · rw [send_eq_already hgl hp]; exact hA
  | track lid a =>
    show ∀ r ∈ (track_engagement s lid a).1, _
    by_cases ha : a ∈ validActions
    · cases hgl : getLead s lid with
      | none => rw [track_eq_notFound ha hgl]; exact hA
      | some r =>
        by_cases hne : (trackDecision r.status a).1 ≠ r.status
        · rw [track_eq_write ha hgl hne]
          intro r' hr' hsl
          obtain ⟨q, hq, he⟩ := List.mem_map.mp hr'
          by_cases hid : q.id = lid
          · rw [if_pos hid] at he
            have hqr : q = r := eq_of_getLead hwf hgl hq hid
            rw [← he] at hsl
            have hsl2 : sendlike (trackDecision r.status a).1 = true := hsl
            have := hA r (mem_of_getLead hgl) (sendlike_trackDecision hsl2)
            rw [← he]
            show q.sentDate.isSome = true
            rw [hqr]
            exact this
          · rw [if_neg hid] at he
            rw [← he] at hsl ⊢
            exact hA q hq hsl
        · rw [track_eq_nowrite ha hgl (not_not.mp hne)]; exact hA
    · rw [track_eq_invalid ha]; exact hA
  | followup lid t =>
    show ∀ r ∈ (send_followup s lid t).1, _
    cases hgl : getLead s lid with
    | none => rw [followup_eq_notFound hgl]; exact hA
    | some r =>
      by_cases hs : r.status ∈ (["sent", "opened"] : List String)
      · rw [followup_eq_ok hgl hs]
        intro r' hr' _
        obtain ⟨q, hq, he⟩ := List.mem_map.mp hr'
        by_cases hid : q.id = lid
        · rw [← he, if_pos hid]
          rfl
        · rw [← he, if_neg hid]
          rw [if_neg hid] at he
          exact hA q hq (by rw [he] at *; assumption)
      · rw [followup_eq_rejected hgl hs]; exact hA
  | tick now =>
    show ∀ r ∈ (automated_followup_check s now).1, _
    rw [tick_fst s now hwf]
    intro r' hr' hsl
    obtain ⟨q, hq, he⟩ := List.mem_map.mp hr'
    by_cases hdf : dueFor now q
    · rw [← he]
      show (tickOne now q).sentDate.isSome = true
      simp [tickOne, hdf]
    · have hq' : tickOne now q = q := by simp [tickOne, hdf]
      rw [hq'] at he
      rw [← he] at hsl ⊢
      exact hA q hq hsl

theorem stepOp_sd {s : Store} (op : Op) (lid : String) (hwf : WF s) :
    sdAt (stepOp s op) lid
      = match evtOf s lid op with
        | some t => some (isoOf t)
        | none => sdAt s lid := by
  cases op with
  | track l a =>
    show sdAt (track_engagement s l a).1 lid = _
    have he : evtOf s lid (Op.track l a) = none := rfl
    rw [he]
    by_cases ha : a ∈ validActions
    · cases hg : getLead s l with
      | none => rw [track_eq_notFound ha hg]
      | some r =>
        by_cases hne : (trackDecision r.status a).1 ≠ r.status
        · rw [track_eq_write ha hg hne]
          unfold sdAt
          by_cases hll : l = lid
          · subst hll
            rw [getLead_setStatus_self]
            cases getLead s l <;> rfl
          · rw [getLead_setStatus_other s l lid _ hll]
        · rw [track_eq_nowrite ha hg (not_not.mp hne)]
    · rw [track_eq_invalid ha]
  | send l t =>
    show sdAt (send_outreach s l t).1 lid = _
    cases hg : getLead s l with
    | none =>
      have he : evtOf s lid (Op.send l t) = none := by simp [evtOf, hg]
      rw [he, send_eq_notFound hg]
    | some r =>
      by_cases hp : r.status = "pending"
      · by_cases hll : l = lid
        · subst hll
          have he : evtOf s l (Op.send l t) = some t := by simp [evtOf, hg, hp]
          rw [he, send_eq_pending hg hp]
          unfold sdAt
          rw [getLead_setBoth_self, hg]
          rfl
        · have he : evtOf s lid (Op.send l t) = none := by simp [evtOf, hg, hll]
          rw [he, send_eq_pending hg hp]
          unfold sdAt
          rw [getLead_setBoth_other s l lid _ _ hll]
      · have he : evtOf s lid (Op.send l t) = none := by simp [evtOf, hg, hp]
        rw [he, send_eq_already hg hp]
  | followup l t =>
    show sdAt (send_followup s l t).1 lid = _
    cases hg : getLead s l with
    | none =>
      have he : evtOf s lid (Op.followup l t) = none := by simp [evtOf, hg]
      rw [he, followup_eq_notFound hg]
    | some r =>
      by_cases hs : r.status ∈ (["sent", "opened"] : List String)
      · by_cases hll : l = lid
        · subst hll
          have he : evtOf s l (Op.followup l t) = some t := by simp [evtOf, hg, hs]
          rw [he, followup_eq_ok hg hs]
          unfold sdAt
          rw [getLead_setBoth_self, hg]
          rfl
        · have he : evtOf s lid (Op.followup l t) = none := by simp [evtOf, hg, hll]
          rw [he, followup_eq_ok hg hs]
          unfold sdAt
          rw [getLead_setBoth_other s l lid _ _ hll]
      · have he : evtOf s lid (Op.followup l t) = none := by simp [evtOf, hg, hs]
        rw [he, followup_eq_rejected hg hs]
  | tick now =>
    show sdAt (automated_followup_check s now).1 lid = _
    rw [tick_fst s now hwf]
    unfold sdAt
    rw [getLead_map (tickOne_id now)]
    cases hg : getLead s lid with
    | none =>
      have he : evtOf s lid (Op.tick now) = none := by simp [evtOf, hg]
      rw [he]
      rfl
    | some r =>
      by_cases hdf : dueFor now r
      · have he : evtOf s lid (Op.tick now) = some now := by simp [evtOf, hg, hdf]
        rw [he]
        show (tickOne now r).sentDate = some (isoOf now)
        simp [tickOne, hdf]
      · have hdf' : dueFor now r = false := by revert hdf; cases dueFor now r <;> simp
        have he : evtOf s lid (Op.tick now) = none := by simp [evtOf, hg, hdf']
        rw [he]
        show (tickOne now r).sentDate = r.sentDate
        simp [tickOne, hdf']
  | ingest b =>
    obtain ⟨tail, ht, hmem⟩ := ingest_leads_shape s b
    show sdAt (ingest_leads s b).1 lid = _
    have he : evtOf s lid (Op.ingest b) = none := rfl
    rw [he, ht]
    unfold sdAt getLead
    rw [List.find?_append]
    cases hg : s.find? (fun r => decide (r.id = lid)) with
    | some r => rfl
    | none =>
      cases hgt : tail.find? (fun r => decide (r.id = lid)) with
      | none => rfl
      | some rt =>
        have hsd : rt.sentDate = none := by
          obtain ⟨l, hl, he'⟩ := hmem rt (List.mem_of_find?_eq_some hgt)
          rw [he']
          rfl
        simp [hsd]

theorem stepOp_fired {s : Store} {op : Op} {lid : String} {t : Nat} (hwf : WF s)
    (h : evtOf s lid op = some t) :
    ∃ r', getLead (stepOp s op) lid = some r' ∧ sendlike r'.status = true ∧
      r'.sentDate = some (isoOf t) := by
  cases op with
  | track l a => simp [evtOf] at h
  | ingest b => simp [evtOf] at h
  | send l t' =>
    cases hg : getLead s l with
    | none => simp [evtOf, hg] at h
    | some r =>
      simp only [evtOf, hg] at h
      by_cases hc : l = lid ∧ r.status = "pending"
      · rw [if_pos hc] at h
        have ht : t' = t := Option.some_inj.mp h
        subst ht
        obtain ⟨hll, hp⟩ := hc
        subst hll
        refine ⟨{ r with status := "sent", sentDate := some (isoOf t') }, ?_,
          show sendlike "sent" = true from by decide, rfl⟩
        show getLead (send_outreach s l t').1 l = _
        rw [send_eq_pending hg hp]
        show getLead (updateLead s l _) l = _
        rw [getLead_setBoth_self, hg]
        rfl
      · rw [if_neg hc] at h
        cases h
  | followup l t' =>
    cases hg : getLead s l with
    | none => simp [evtOf, hg] at h
    | some r =>
      simp only [evtOf, hg] at h
      by_cases hc : l = lid ∧ r.status ∈ (["sent", "opened"] : List String)
      · rw [if_pos hc] at h
        have ht : t' = t := Option.some_inj.mp h
        subst ht
        obtain ⟨hll, hs⟩ := hc
        subst hll
        refine ⟨{ r with status := "followup_sent", sentDate := some (isoOf t') }, ?_,
          show sendlike "followup_sent" = true from by decide, rfl⟩
        show getLead (send_followup s l t').1 l = _
        rw [followup_eq_ok hg hs]
        show getLead (updateLead s l _) l = _
        rw [getLead_setBoth_self, hg]
        rfl
      · rw [if_neg hc] at h
        cases h
  | tick now =>
    cases hg : getLead s lid with
    | none => simp [evtOf, hg] at h
    | some r =>
      simp only [evtOf, hg] at h
      by_cases hdf : dueFor now r
      · rw [if_pos hdf] at h
        have ht : now = t := Option.some_inj.mp h
        subst ht
        refine ⟨tickOne now r, ?_, ?_, ?_⟩
        · show getLead (automated_followup_check s now).1 lid = some (tickOne now r)
          rw [tick_fst s now hwf, getLead_map (tickOne_id now), hg]
          rfl
        · rw [show (tickOne now r).status = "followup_sent" from by simp [tickOne, hdf]]
          decide
        · simp [tickOne, hdf]
      · rw [if_neg hdf] at h
        cases h

theorem anySl_of_getLead {s : Store} {lid : String} {r : Lead}
    (h : getLead s lid = some r) (hsl : sendlike r.status = true) :
    anySl s lid = true :=
  List.any_eq_true.mpr ⟨r, mem_of_getLead h, by simp [getLead_id h, hsl]⟩

theorem sdSome_of_anySl {s : Store} {lid : String} (hg : GoodStore s)
    (ha : anySl s lid = true) : (sdAt s lid).isSome = true := by
  obtain ⟨r, hr, hp⟩ := List.any_eq_true.mp ha
  have hp' := (Bool.and_eq_true _ _).mp hp
  have hid : r.id = lid := of_decide_eq_true hp'.1
  have hgl : getLead s lid = some r := by
    rw [← hid]
    exact getLead_of_mem hg.1 hr
  unfold sdAt
  rw [hgl]
  exact hg.2 r hr hp'.2

theorem reached_head {s : Store} {ops : List Op} {lid : String}
    (h : anySl s lid = true) : reachedSendlike s ops lid = true := by
  cases ops <;> simp [reachedSendlike, statesList, h]

theorem reached_cons {s : Store} {op : Op} {rest : List Op} {lid : String} :
    reachedSendlike s (op :: rest) lid
      = (anySl s lid || reachedSendlike (stepOp s op) rest lid) := by
  simp [reachedSendlike, statesList]

theorem run_sdSome (ops : List Op) :
    ∀ s lid, GoodStore s → ops.all benignOp = true →
      (sdAt (run s ops) lid).isSome
        = ((sdAt s lid).isSome || reachedSendlike s ops lid) := by
  induction ops with
  | nil =>
    intro s lid hg _
    show (sdAt s lid).isSome = ((sdAt s lid).isSome || reachedSendlike s [] lid)
    have hre : reachedSendlike s [] lid = anySl s lid := by
      simp [reachedSendlike, statesList]
    rw [hre]
    cases ha : anySl s lid
    · simp
    · simp [sdSome_of_anySl hg ha]
  | cons op rest ih =>
    intro s lid hg hb
    have hb1 : benignOp op = true := (List.all_eq_true.mp hb) op (List.mem_cons_self _ _)
    have hbr : rest.all benignOp = true :=
      List.all_eq_true.mpr fun x hx => (List.all_eq_true.mp hb) x (List.mem_cons_of_mem _ hx)
    have hg' := stepOp_good op hg hb1
    have hstep := stepOp_sd op lid hg.1
    show (sdAt (run (stepOp s op) rest) lid).isSome = _
    rw [ih (stepOp s op) lid hg' hbr, reached_cons]
    cases he : evtOf s lid op with
    | some t =>
      rw [he] at hstep
      rw [hstep]
      obtain ⟨r', hr', hsl, _⟩ := stepOp_fired hg.1 he
      have hre : reachedSendlike (stepOp s op) rest lid = true :=
        reached_head (anySl_of_getLead hr' hsl)
      simp [hre]
    | none =>
      rw [he] at hstep
      rw [hstep]
      cases ha : anySl s lid
      · simp
      · simp [sdSome_of_anySl hg ha]

theorem run_lastEvt (ops : List Op) :
    ∀ s lid cur, WF s → sdAt s lid = cur.map isoOf →
      sdAt (run s ops) lid = (lastEvt cur s lid ops).map isoOf := by
  induction ops with
  | nil =>
    intro s lid cur _ hcur
    exact hcur
  | cons op rest ih =>
    intro s lid cur hwf hcur
    have hstep := stepOp_sd op lid hwf
    show sdAt (run (stepOp s op) rest) lid = _
    cases he : evtOf s lid op with
    | some t =>
      rw [he] at hstep
      have hle : lastEvt cur s lid (op :: rest) = lastEvt (some t) (stepOp s op) lid rest := by
        simp [lastEvt, he]
      rw [hle]
      exact ih (stepOp s op) lid (some t) (stepOp_WF op hwf) (by rw [hstep]; rfl)
    | none =>
      rw [he] at hstep
      have hle : lastEvt cur s lid (op :: rest) = lastEvt cur (stepOp s op) lid rest := by
        simp [lastEvt, he]
      rw [hle]
      exact ih (stepOp s op) lid cur (stepOp_WF op hwf) (by rw [hstep]; exact hcur)

theorem goodStore_nil : GoodStore [] :=
  ⟨by simp [WF], fun r hr => absurd hr (List.not_mem_nil r)⟩

theorem trackDecision_opened {st : String} (h : st = "sent") :
    (trackDecision st "opened").1 = "opened" := by
  simp [trackDecision, h]

theorem trackDecision_replied {st : String}
    (h : st ∈ (["sent", "opened", "pending", "followup_sent"] : List String)) :
    (trackDecision st "replied").1 = "replied" := by
  simp [trackDecision, h]

theorem trackDecision_bounced {st : String}
    (h : st ∈ (["sent", "pending", "followup_sent"] : List String)) :
    (trackDecision st "bounced").1 = "bounced" := by
  simp [trackDecision, h]

theorem trackDecision_unlisted {st a : String}
    (h : ¬((a = "opened" ∧ st = "sent") ∨
        (a = "replied" ∧ st ∈ (["sent", "opened", "pending", "followup_sent"] : List String)) ∨
        (a = "bounced" ∧ st ∈ (["sent", "pending", "followup_sent"] : List String)))) :
    (trackDecision st a).1 = st := by
  push_neg at h
  obtain ⟨h1, h2, h3⟩ := h
  unfold trackDecision
  rw [if_neg, if_neg, if_neg]
  · split <;> rfl
  · intro hc
    exact (h3 hc.1) hc.2
  · intro hc
    exact (h2 hc.1) hc.2
  · intro hc
    exact (h1 hc.1) hc.2

/-- Claim C1: for every existing lead and every tracking action in
{opened, replied, bounced}, `track_engagement` computes the new status
exactly as the transition table specifies (`opened`: sent to opened;
`replied`: pending/sent/opened/followup_sent to replied; `bounced`:
pending/sent/followup_sent to bounced), the response always carries the
resulting status with HTTP 200, and every (status, action) pair not in the
table leaves the stored status and the store unchanged, returning a
descriptive outcome rather than an error. -/
theorem C1_track_transition_table (store : Store) (lid a : String) (r : Lead)
    (hr : getLead store lid = some r) (ha : a ∈ validActions) :
    (track_engagement store lid a).2.code = 200 ∧
    (∃ oc w, (track_engagement store lid a).2
        = TrackResult.ok oc (trackDecision r.status a).1 w) ∧
    (a = "opened" → r.status = "sent" → (trackDecision r.status a).1 = "opened") ∧
    (a = "replied" → r.status ∈ (["sent", "opened", "pending", "followup_sent"] : List String) →
      (trackDecision r.status a).1 = "replied") ∧
    (a = "bounced" → r.status ∈ (["sent", "pending", "followup_sent"] : List String) →
      (trackDecision r.status a).1 = "bounced") ∧
    (¬((a = "opened" ∧ r.status = "sent") ∨
        (a = "replied" ∧ r.status ∈ (["sent", "opened", "pending", "followup_sent"] : List String)) ∨
        (a = "bounced" ∧ r.status ∈ (["sent", "pending", "followup_sent"] : List String))) →
      (trackDecision r.status a).1 = r.status ∧ (track_engagement store lid a).1 = store) := by
  have hresp : (track_engagement store lid a).2.code = 200 ∧
      ∃ oc w, (track_engagement store lid a).2
        = TrackResult.ok oc (trackDecision r.status a).1 w := by
    by_cases hne : (trackDecision r.status a).1 ≠ r.status
    · rw [track_eq_write ha hr hne]
      exact ⟨rfl, ⟨_, _, rfl⟩⟩
    · rw [track_eq_nowrite ha hr (not_not.mp hne)]
      exact ⟨rfl, ⟨_, _, rfl⟩⟩
  refine ⟨hresp.1, hresp.2,
    fun h1 h2 => by rw [h1]; exact trackDecision_opened h2,
    fun h1 h2 => by rw [h1]; exact trackDecision_replied h2,
    fun h1 h2 => by rw [h1]; exact trackDecision_bounced h2,
    fun hnl => ⟨trackDecision_unlisted hnl, ?_⟩⟩
  rw [track_eq_nowrite ha hr (trackDecision_unlisted hnl)]

/-- Witness for C1 at a concrete lead with status `sent` and action
`opened`. -/
theorem C1_witness :
    (getLead [mkLead "1" "a@x" "sent" (some "5")] "1"
        = some (mkLead "1" "a@x" "sent" (some "5"))) ∧
    ("opened" ∈ validActions) ∧
    (track_engagement [mkLead "1" "a@x" "sent" (some "5")] "1" "opened").2.code = 200 ∧
    (trackDecision "sent" "opened").1 = "opened" :=
  ⟨rfl, by decide,
    (C1_track_transition_table [mkLead "1" "a@x" "sent" (some "5")] "1" "opened"
      (mkLead "1" "a@x" "sent" (some "5")) rfl (by decide)).1,
    (C1_track_transition_table [mkLead "1" "a@x" "sent" (some "5")] "1" "opened"
      (mkLead "1" "a@x" "sent" (some "5")) rfl (by decide)).2.2.1 rfl rfl⟩

/-- Counterexample for C2: the lead exists with status `pending` (not in
{sent, opened}); the follow-up route leaves it unchanged but responds with
HTTP 400, a transport-level error, not a success-shaped response. -/
theorem C2_counterexample :
    getLead [mkLead "1" "a@x" "pending" none] "1"
        = some (mkLead "1" "a@x" "pending" none) ∧
    (mkLead "1" "a@x" "pending" none).status ∉ (["sent", "opened"] : List String) ∧
    (send_followup [mkLead "1" "a@x" "pending" none] "1" 0).2.code = 400 ∧
    ¬((send_followup [mkLead "1" "a@x" "pending" none] "1" 0).2.code < 400) ∧
    (send_followup [mkLead "1" "a@x" "pending" none] "1" 0).1
        = [mkLead "1" "a@x" "pending" none] := by
  refine ⟨rfl, by decide, rfl, by decide, rfl⟩

/-- Claim C2 as amended: for every existing lead whose status is not in
{sent, opened}, the follow-up route leaves the store unchanged and returns
a rejection response carrying the current status, but with HTTP 400 (a
client-error code), not a success-shaped response. -/
theorem C2_amended (store : Store) (lid : String) (t : Nat) (r : Lead)
    (hr : getLead store lid = some r)
    (hs : r.status ∉ (["sent", "opened"] : List String)) :
    send_followup store lid t = (store, FollowupResult.rejected r.status) ∧
    (FollowupResult.rejected r.status).code = 400 :=
  ⟨followup_eq_rejected hr hs, rfl⟩

/-- Witness for the amended C2 at a concrete pending lead. -/
theorem C2_witness :
    (getLead [mkLead "1" "a@x" "pending" none] "1"
        = some (mkLead "1" "a@x" "pending" none)) ∧
    ((mkLead "1" "a@x" "pending" none).status ∉ (["sent", "opened"] : List String)) ∧
    (send_followup [mkLead "1" "a@x" "pending" none] "1" 0
        = ([mkLead "1" "a@x" "pending" none], FollowupResult.rejected "pending") ∧
      (FollowupResult.rejected "pending").code = 400) :=
  ⟨rfl, by decide,
    C2_amended [mkLead "1" "a@x" "pending" none] "1" 0
      (mkLead "1" "a@x" "pending" none) rfl (by decide)⟩

/-- Counterexample for C3: ingestion honours an incoming `status` field but
always inserts `sent_date` NULL, so ingesting a record that supplies
status `sent` yields a reachable record whose sendlike status has been
reached while `sent_date` is null, refuting the claimed equivalence. -/
theorem C3_counterexample :
    getLead (run [] [Op.ingest [mkInput (some "X") (some "x@x") (some "sent")]]) "X"
        = some (recOf (mkInput (some "X") (some "x@x") (some "sent"))) ∧
    reachedSendlike [] [Op.ingest [mkInput (some "X") (some "x@x") (some "sent")]] "X" = true ∧
    (recOf (mkInput (some "X") (some "x@x") (some "sent"))).sentDate = none ∧
    ¬(((recOf (mkInput (some "X") (some "x@x") (some "sent"))).sentDate.isSome = true) ↔
        (reachedSendlike [] [Op.ingest [mkInput (some "X") (some "x@x") (some "sent")]] "X"
          = true)) := by
  refine ⟨rfl, by decide, rfl, by decide⟩

/-- Claim C3 as amended: restricted to runs whose ingestions supply no
status in {sent, opened, followup_sent}, every record reachable from the
empty store satisfies: `sent_date` is non-null iff a status in that set
was reached at least once during the run, and `sent_date` always equals
the serialised timestamp of the most recent effective send or follow-up
event — never of an engagement event, which produces no event. -/
theorem C3_amended (ops : List Op) (lid : String) (r : Lead)
    (hb : ops.all benignOp = true)
    (hr : getLead (run [] ops) lid = some r) :
    (r.sentDate.isSome = true ↔ reachedSendlike [] ops lid = true) ∧
    r.sentDate = (lastEvt none [] lid ops).map isoOf := by
  have hsd : sdAt (run [] ops) lid = r.sentDate := by
    unfold sdAt
    rw [hr]
    rfl
  have h1 : r.sentDate.isSome = reachedSendlike [] ops lid := by
    rw [← hsd, run_sdSome ops [] lid goodStore_nil hb]
    rfl
  constructor
  · rw [h1]
  · rw [← hsd]
    exact run_lastEvt ops [] lid none (by simp [WF]) rfl

/-- Witness for the amended C3 on a run that ingests one benign lead,
sends, tracks an open and lets the scheduler follow it up. -/
theorem C3_witness :
    (([Op.ingest [mkInput (some "1") (some "a@x") none], Op.send "1" 5,
        Op.track "1" "opened", Op.tick 100].all benignOp) = true) ∧
    (getLead (run [] [Op.ingest [mkInput (some "1") (some "a@x") none], Op.send "1" 5,
        Op.track "1" "opened", Op.tick 100]) "1"
      = some (mkLead "1" "a@x" "followup_sent" (some "100"))) ∧
    ((mkLead "1" "a@x" "followup_sent" (some "100")).sentDate.isSome = true ↔
      reachedSendlike [] [Op.ingest [mkInput (some "1") (some "a@x") none], Op.send "1" 5,
        Op.track "1" "opened", Op.tick 100] "1" = true) ∧
    (mkLead "1" "a@x" "followup_sent" (some "100")).sentDate
      = (lastEvt none [] "1" [Op.ingest [mkInput (some "1") (some "a@x") none], Op.send "1" 5,
          Op.track "1" "opened", Op.tick 100]).map isoOf := by
  refine ⟨by decide, by decide, ?_⟩
  exact C3_amended _ "1" (mkLead "1" "a@x" "followup_sent" (some "100")) (by decide) (by decide)

/-- Counterexample for C4: a lead whose `sent_date` is exactly the
60-second threshold old is not older than the threshold, yet the tick
performs the follow-up (the source compares with greater-or-equal). -/
theorem C4_counterexample :
    (mkLead "1" "a@x" "sent" (some "0")) ∈ ([mkLead "1" "a@x" "sent" (some "0")] : Store) ∧
    parseTime "0" = some 0 ∧
    ¬(60 - 0 > 60) ∧
    (automated_followup_check [mkLead "1" "a@x" "sent" (some "0")] 60).1
        = [mkLead "1" "a@x" "followup_sent" (some "60")] ∧
    (mkLead "1" "a@x" "followup_sent" (some "60")) ≠ (mkLead "1" "a@x" "sent" (some "0")) := by
  refine ⟨by decide, rfl, by decide, rfl, by decide⟩

/-- Claim C4 as amended: with the inclusive boundary — a lead is due when
its status is in {sent, opened} and its stored `sent_date` parses to a
time at least 60 seconds before the tick (`dueFor`) — one scheduler tick
turns every due lead into `followup_sent` with `sent_date` updated to the
tick time, and leaves every non-due lead unchanged. -/
theorem C4_amended (store : Store) (now : Nat) (r : Lead)
    (hwf : WF store) (hr : r ∈ store) :
    (∀ d ts, r.status ∈ (["sent", "opened"] : List String) → r.sentDate = some d →
      parseTime d = some ts → 60 ≤ now - ts → dueFor now r = true) ∧
    (dueFor now r = true →
      getLead (automated_followup_check store now).1 r.id
        = some { r with status := "followup_sent", sentDate := some (isoOf now) }) ∧
    (dueFor now r = false →
      getLead (automated_followup_check store now).1 r.id = some r) := by
  have hg : getLead store r.id = some r := getLead_of_mem hwf hr
  refine ⟨?_, ?_, ?_⟩
  · intro d ts h1 h2 h3 h4
    simp [dueFor, h1, h2, h3, h4]
  · intro hdf
    rw [tick_fst store now hwf, getLead_map (tickOne_id now), hg]
    simp [tickOne, hdf]
  · intro hdf
    rw [tick_fst store now hwf, getLead_map (tickOne_id now), hg]
    simp [tickOne, hdf]

/-- Witness for the amended C4: a two-lead store where the first lead is
due (101 - 0 seconds elapsed) and is followed up, and the second lead is
not due and is untouched. -/
theorem C4_witness :
    WF ([mkLead "1" "a@x" "sent" (some "0"), mkLead "2" "b@x" "pending" none] : Store) ∧
    (mkLead "1" "a@x" "sent" (some "0"))
        ∈ ([mkLead "1" "a@x" "sent" (some "0"), mkLead "2" "b@x" "pending" none] : Store) ∧
    (mkLead "2" "b@x" "pending" none)
        ∈ ([mkLead "1" "a@x" "sent" (some "0"), mkLead "2" "b@x" "pending" none] : Store) ∧
    (dueFor 101 (mkLead "1" "a@x" "sent" (some "0")) = true →
      getLead (automated_followup_check
          [mkLead "1" "a@x" "sent" (some "0"), mkLead "2" "b@x" "pending" none] 101).1 "1"
        = some (mkLead "1" "a@x" "followup_sent" (some "101"))) ∧
    (dueFor 101 (mkLead "2" "b@x" "pending" none) = false →
      getLead (automated_followup_check
          [mkLead "1" "a@x" "sent" (some "0"), mkLead "2" "b@x" "pending" none] 101).1 "2"
        = some (mkLead "2" "b@x" "pending" none)) ∧
    dueFor 101 (mkLead "1" "a@x" "sent" (some "0")) = true ∧
    dueFor 101 (mkLead "2" "b@x" "pending" none) = false :=
  ⟨by decide, by decide, by decide,
    (C4_amended [mkLead "1" "a@x" "sent" (some "0"), mkLead "2" "b@x" "pending" none] 101
      (mkLead "1" "a@x" "sent" (some "0")) (by decide) (by decide)).2.1,
    (C4_amended [mkLead "1" "a@x" "sent" (some "0"), mkLead "2" "b@x" "pending" none] 101
      (mkLead "2" "b@x" "pending" none) (by decide) (by decide)).2.2,
    by decide, by decide⟩

/-- Claim C5: the request-path follow-up (`send_followup`) and the
scheduler-path follow-up (`send_followup_internal`) are behaviourally
equivalent on the stored record: they produce the same store on every
input, the shared decision is legal exactly when the status is in
{sent, opened}, in which case both set status `followup_sent` and
`sent_date` to now, and otherwise both leave the store unchanged. -/
theorem C5_followup_paths_equivalent (store : Store) (lid : String) (t : Nat) :
    (send_followup store lid t).1 = send_followup_internal store lid t ∧
    (∀ r, getLead store lid = some r → r.status ∈ (["sent", "opened"] : List String) →
      send_followup_internal store lid t
        = updateLead store lid
            (fun q => { q with status := "followup_sent", sentDate := some (isoOf t) })) ∧
    (∀ r, getLead store lid = some r → r.status ∉ (["sent", "opened"] : List String) →
      send_followup_internal store lid t = store) ∧
    (getLead store lid = none → send_followup_internal store lid t = store) := by
  refine ⟨?_, fun r hr hs => internal_eq_ok hr hs, fun r hr hs => internal_eq_rejected hr hs,
    fun h => internal_eq_notFound h⟩
  cases hg : getLead store lid with
  | none => rw [internal_eq_notFound hg, followup_eq_notFound hg]
  | some r =>
    by_cases hs : r.status ∈ (["sent", "opened"] : List String)
    · rw [internal_eq_ok hg hs, followup_eq_ok hg hs]
    · rw [internal_eq_rejected hg hs, followup_eq_rejected hg hs]

/-- Witness for C5 at a concrete lead with status `sent`, exercising the
equivalence and the legal branch. -/
theorem C5_witness :
    (send_followup [mkLead "1" "a@x" "sent" (some "5")] "1" 7).1
        = send_followup_internal [mkLead "1" "a@x" "sent" (some "5")] "1" 7 ∧
    send_followup_internal [mkLead "1" "a@x" "sent" (some "5")] "1" 7
        = updateLead [mkLead "1" "a@x" "sent" (some "5")] "1"
            (fun q => { q with status := "followup_sent", sentDate := some (isoOf 7) }) :=
  ⟨(C5_followup_paths_equivalent [mkLead "1" "a@x" "sent" (some "5")] "1" 7).1,
    (C5_followup_paths_equivalent [mkLead "1" "a@x" "sent" (some "5")] "1" 7).2.1
      (mkLead "1" "a@x" "sent" (some "5")) rfl (by decide)⟩

/-- Counterexample for C6: for a lead whose status is `replied`, two
successive sends leave the status `replied`, not `sent`, so the claim as
stated over every lead fails; the second call is still a no-op. -/
theorem C6_counterexample :
    getLead [mkLead "1" "a@x" "replied" none] "1"
        = some (mkLead "1" "a@x" "replied" none) ∧
    (send_outreach ((send_outreach [mkLead "1" "a@x" "replied" none] "1" 0).1) "1" 1).1
        = [mkLead "1" "a@x" "replied" none] ∧
    (mkLead "1" "a@x" "replied" none).status ≠ "sent" := by
  refine ⟨rfl, rfl, by decide⟩

/-- Claim C6 as amended: for every lead whose status is `pending`, the
first send sets status `sent` and `sent_date`; an immediately repeated
send is a no-op returning the `already sent` outcome, changing neither the
store (hence neither status nor `sent_date`), so the pair of calls
produces exactly one `sent_date` value. -/
theorem C6_amended (store : Store) (lid : String) (t1 t2 : Nat) (r : Lead)
    (hr : getLead store lid = some r) (hp : r.status = "pending") :
    getLead (send_outreach store lid t1).1 lid
        = some { r with status := "sent", sentDate := some (isoOf t1) } ∧
    send_outreach ((send_outreach store lid t1).1) lid t2
        = ((send_outreach store lid t1).1, SendResult.already "sent") := by
  have h1 : send_outreach store lid t1
      = (updateLead store lid
          (fun q => { q with status := "sent", sentDate := some (isoOf t1) }),
        SendResult.sentOk (isoOf t1)) := send_eq_pending hr hp
  have hg1 : getLead (send_outreach store lid t1).1 lid
      = some { r with status := "sent", sentDate := some (isoOf t1) } := by
    rw [h1]
    show getLead (updateLead store lid _) lid = _
    rw [getLead_setBoth_self, hr]
    rfl
  refine ⟨hg1, ?_⟩
  exact send_eq_already hg1 (show ("sent" : String) ≠ "pending" from by decide)

/-- Witness for the amended C6 at a concrete pending lead. -/
theorem C6_witness :
    (getLead [mkLead "1" "a@x" "pending" none] "1"
        = some (mkLead "1" "a@x" "pending" none)) ∧
    ((mkLead "1" "a@x" "pending" none).status = "pending") ∧
    (getLead (send_outreach [mkLead "1" "a@x" "pending" none] "1" 3).1 "1"
        = some (mkLead "1" "a@x" "sent" (some "3")) ∧
      send_outreach ((send_outreach [mkLead "1" "a@x" "pending" none] "1" 3).1) "1" 9
        = ((send_outreach [mkLead "1" "a@x" "pending" none] "1" 3).1,
           SendResult.already "sent")) :=
  ⟨rfl, rfl,
    C6_amended [mkLead "1" "a@x" "pending" none] "1" 3 9
      (mkLead "1" "a@x" "pending" none) rfl rfl⟩

/-- Claim C7: for every lead and valid tracking action, `track_engagement`
modifies no field other than status (in particular never `sent_date`), and
it issues the UPDATE exactly when the computed new status differs from the
current one — otherwise the store is returned untouched. -/
theorem C7_track_frame (store : Store) (lid a : String) (ha : a ∈ validActions) :
    ((track_engagement store lid a).1.map eraseStatus = store.map eraseStatus) ∧
    (∀ r, getLead store lid = some r →
      (track_engagement store lid a).2
          = TrackResult.ok (trackDecision r.status a).2 (trackDecision r.status a).1
              (decide ((trackDecision r.status a).1 ≠ r.status)) ∧
      ((trackDecision r.status a).1 = r.status → (track_engagement store lid a).1 = store)) := by
  cases hg : getLead store lid with
  | none =>
    rw [track_eq_notFound ha hg]
    exact ⟨rfl, fun r hr => Option.noConfusion hr⟩
  | some r =>
    by_cases hne : (trackDecision r.status a).1 ≠ r.status
    · rw [track_eq_write ha hg hne]
      refine ⟨?_, fun r' hr' => ?_⟩
      · show (updateLead store lid _).map eraseStatus = store.map eraseStatus
        rw [updateLead_eq_map, List.map_map]
        apply List.map_congr_left
        intro q _
        by_cases hid : q.id = lid <;> simp [Function.comp, hid, eraseStatus]
      · have hrr : r' = r := (Option.some_inj.mp hr').symm
        subst hrr
        refine ⟨?_, fun heq => absurd heq hne⟩
        rw [decide_eq_true hne]
    · have heq := not_not.mp hne
      rw [track_eq_nowrite ha hg heq]
      refine ⟨rfl, fun r' hr' => ?_⟩
      have hrr : r' = r := (Option.some_inj.mp hr').symm
      subst hrr
      refine ⟨?_, fun _ => rfl⟩
      rw [decide_eq_false hne]

/-- Witness for C7: tracking `opened` on a `sent` lead writes (status
changes), with `sent_date` and all other fields untouched. -/
theorem C7_witness :
    ("opened" ∈ validActions) ∧
    ((track_engagement [mkLead "1" "a@x" "sent" (some "5")] "1" "opened").1.map eraseStatus
        = ([mkLead "1" "a@x" "sent" (some "5")] : Store).map eraseStatus) ∧
    ((track_engagement [mkLead "1" "a@x" "sent" (some "5")] "1" "opened").2
        = TrackResult.ok (trackDecision "sent" "opened").2 (trackDecision "sent" "opened").1
            (decide ((trackDecision "sent" "opened").1 ≠ "sent"))) :=
  ⟨by decide,
    (C7_track_frame [mkLead "1" "a@x" "sent" (some "5")] "1" "opened" (by decide)).1,
    ((C7_track_frame [mkLead "1" "a@x" "sent" (some "5")] "1" "opened" (by decide)).2
      (mkLead "1" "a@x" "sent" (some "5")) rfl).1⟩

/-- Claim C8: ingesting a batch of two valid records with the same email
but different ids into a store containing neither yields exactly one
insertion and one skip: the first record is appended, the duplicate is
skipped with a recorded reason, the stored record is left unchanged, and
the batch still returns HTTP 200. -/
theorem C8_duplicate_email (store : Store) (l1 l2 : LeadInput) (i1 i2 e : String)
    (h1req : hasRequired l1 = true) (h2req : hasRequired l2 = true)
    (hi1 : l1.id = some i1) (hi2 : l2.id = some i2) (hne : i1 ≠ i2)
    (he1 : l1.email = some e) (he2 : l2.email = some e)
    (hfresh : ∀ q ∈ store, q.id ≠ i1 ∧ q.id ≠ i2 ∧ q.email ≠ e) :
    (ingest_leads store [l1, l2]).2.inserted = 1 ∧
    (ingest_leads store [l1, l2]).2.skipped = 1 ∧
    (ingest_leads store [l1, l2]).2.errors = [SkipReason.duplicate (some e)] ∧
    (ingest_leads store [l1, l2]).1 = store ++ [recOf l1] ∧
    (ingest_leads store [l1, l2]).2.code = 200 := by
  have hid1 : (recOf l1).id = i1 := by simp [recOf, hi1]
  have hem1 : (recOf l1).email = e := by simp [recOf, he1]
  have hem2 : (recOf l2).email = e := by simp [recOf, he2]
  have hci1 : canInsert store (recOf l1) = true := by
    apply List.all_eq_true.mpr
    intro q hq
    apply decide_eq_true
    exact ⟨by rw [hid1]; exact (hfresh q hq).1,
      by rw [hem1]; exact (hfresh q hq).2.2⟩
  have hci2 : canInsert (store ++ [recOf l1]) (recOf l2) = false := by
    by_contra hcon
    have htrue : canInsert (store ++ [recOf l1]) (recOf l2) = true := by
      revert hcon
      cases canInsert (store ++ [recOf l1]) (recOf l2) <;> simp
    have hall := List.all_eq_true.mp htrue (recOf l1) (by simp)
    exact (of_decide_eq_true hall).2 (by rw [hem1, hem2])
  have s1 : ingestStep (store, 0, 0, ([] : List SkipReason)) l1
      = (store ++ [recOf l1], 1, 0, []) := by
    simp [ingestStep, h1req, hci1]
  have s2 : ingestStep (store ++ [recOf l1], 1, 0, ([] : List SkipReason)) l2
      = (store ++ [recOf l1], 1, 1, [SkipReason.duplicate l2.email]) := by
    simp [ingestStep, h2req, hci2]
  have hfold : ([l1, l2].foldl ingestStep (store, 0, 0, []))
      = (store ++ [recOf l1], 1, 1, [SkipReason.duplicate l2.email]) := by
    rw [List.foldl_cons, s1, List.foldl_cons, s2, List.foldl_nil]
  refine ⟨?_, ?_, ?_, ?_, ?_⟩ <;> simp [ingest_leads, hfold, he2]

/-- Witness for C8: two records with email `dup@x` and ids 1 and 2 into the
empty store. -/
theorem C8_witness :
    hasRequired (mkInput (some "1") (some "dup@x") none) = true ∧
    hasRequired (mkInput (some "2") (some "dup@x") none) = true ∧
    ("1" : String) ≠ "2" ∧
    (ingest_leads [] [mkInput (some "1") (some "dup@x") none,
        mkInput (some "2") (some "dup@x") none]).2.inserted = 1 ∧
    (ingest_leads [] [mkInput (some "1") (some "dup@x") none,
        mkInput (some "2") (some "dup@x") none]).2.skipped = 1 ∧
    (ingest_leads [] [mkInput (some "1") (some "dup@x") none,
        mkInput (some "2") (some "dup@x") none]).2.errors
      = [SkipReason.duplicate (some "dup@x")] ∧
    (ingest_leads [] [mkInput (some "1") (some "dup@x") none,
        mkInput (some "2") (some "dup@x") none]).1
      = [] ++ [recOf (mkInput (some "1") (some "dup@x") none)] ∧
    (ingest_leads [] [mkInput (some "1") (some "dup@x") none,
        mkInput (some "2") (some "dup@x") none]).2.code = 200 := by
  have h := C8_duplicate_email [] (mkInput (some "1") (some "dup@x") none)
    (mkInput (some "2") (some "dup@x") none) "1" "2" "dup@x"
    rfl rfl rfl rfl (by decide) rfl rfl (by intro q hq; cases hq)
  exact ⟨rfl, rfl, by decide, h.1, h.2.1, h.2.2.1, h.2.2.2.1, h.2.2.2.2⟩

/-- Claim C9: one scheduler sweep acts on each lead independently — the
resulting store is the pointwise `tickOne` image of the store, so an error
raised while processing one lead (a missing or unparseable `sent_date`)
cannot abort the processing of any other lead; the error log is exactly
the list of per-candidate failures. -/
theorem C9_sweep_isolation (store : Store) (now : Nat) (hwf : WF store) :
    (automated_followup_check store now).1 = store.map (tickOne now) ∧
    (automated_followup_check store now).2
      = (store.filter (fun r =>
          decide (r.status ∈ (["sent", "opened"] : List String)) &&
            r.sentDate.isSome)).filterMap errOf :=
  ⟨tick_fst store now hwf, tick_snd store now⟩

/-- Witness for C9: a sweep over a store whose middle candidate has an
unparseable `sent_date`: the bad lead is logged and left unchanged while
both other leads are still followed up. -/
theorem C9_witness :
    WF ([mkLead "1" "a@x" "sent" (some "0"), mkLead "2" "b@x" "sent" (some "bad"),
        mkLead "3" "c@x" "opened" (some "1")] : Store) ∧
    ((automated_followup_check [mkLead "1" "a@x" "sent" (some "0"),
        mkLead "2" "b@x" "sent" (some "bad"),
        mkLead "3" "c@x" "opened" (some "1")] 100).1
      = ([mkLead "1" "a@x" "sent" (some "0"), mkLead "2" "b@x" "sent" (some "bad"),
          mkLead "3" "c@x" "opened" (some "1")] : Store).map (tickOne 100)) ∧
    ((automated_followup_check [mkLead "1" "a@x" "sent" (some "0"),
        mkLead "2" "b@x" "sent" (some "bad"),
        mkLead "3" "c@x" "opened" (some "1")] 100).1
      = [mkLead "1" "a@x" "followup_sent" (some "100"), mkLead "2" "b@x" "sent" (some "bad"),
         mkLead "3" "c@x" "followup_sent" (some "100")]) ∧
    ((automated_followup_check [mkLead "1" "a@x" "sent" (some "0"),
        mkLead "2" "b@x" "sent" (some "bad"),
        mkLead "3" "c@x" "opened" (some "1")] 100).2
      = ["Error processing lead 2"]) :=
  ⟨by decide,
    (C9_sweep_isolation [mkLead "1" "a@x" "sent" (some "0"),
      mkLead "2" "b@x" "sent" (some "bad"),
      mkLead "3" "c@x" "opened" (some "1")] 100 (by decide)).1,
    by decide, by decide⟩

/-- Claim C10: for every well-formed (JSON array) ingestion batch, every
item is classified as exactly one of inserted or skipped — the returned
counts satisfy inserted + skipped = batch length — and the endpoint
returns HTTP 200 regardless of how many items were skipped. -/
theorem C10_ingest_totals (store : Store) (batch : List LeadInput) :
    (ingest_leads store batch).2.inserted + (ingest_leads store batch).2.skipped
        = batch.length ∧
    (ingest_leads store batch).2.code = 200 := by
  constructor
  · have h := ingest_fold_counts batch (store, 0, 0, [])
    simpa [ingest_leads] using h
  · rfl

/-- Witness for C10 at a concrete mixed batch: one valid record, one with
missing fields, one duplicate. -/
theorem C10_witness :
    (ingest_leads [] [mkInput (some "1") (some "a@x") none,
        mkInput none (some "b@x") none,
        mkInput (some "2") (some "a@x") none]).2.inserted
      + (ingest_leads [] [mkInput (some "1") (some "a@x") none,
          mkInput none (some "b@x") none,
          mkInput (some "2") (some "a@x") none]).2.skipped
      = ([mkInput (some "1") (some "a@x") none, mkInput none (some "b@x") none,
          mkInput (some "2") (some "a@x") none] : List LeadInput).length ∧
    (ingest_leads [] [mkInput (some "1") (some "a@x") none,
        mkInput none (some "b@x") none,
        mkInput (some "2") (some "a@x") none]).2.code = 200 :=
  C10_ingest_totals [] [mkInput (some "1") (some "a@x") none,
    mkInput none (some "b@x") none, mkInput (some "2") (some "a@x") none]

end Outreach
